import Mathlib

/-!
Verification of the psm-tool backend pipeline code.

Shallow embedding of the pure logic of the backend sources:
`src/backend/src/utils/enum.ts`, `src/backend/src/utils/fs.ts`
(chunking, dedup, classification merge), `src/backend/dist/utils/jobManager.js`,
`src/backend/src/utils/mistral.ts` (retry/backoff, OCR), and the row loops of
`src/backend/src/services/drilldownService.ts`,
`src/backend/src/services/assessmentsService.ts` and `runInterviewAnalyzer`.
JavaScript strings are modelled as Lean `String`/`List Char`, numbers as
`Int`/`Nat`/`ℚ`, `undefined`-able values as `Option`, thrown exceptions as
`Except`, and the open-ended `while` loop of the chunker as a fuel-indexed
function (`none` = the loop has not finished within the given fuel).
-/

namespace PsmTool

/-! ## JavaScript string primitives -/

/-- Whitespace test used by `String.prototype.trim` (ASCII subset used here). -/
def isJsWhitespace (c : Char) : Bool :=
  c = ' ' || c = '\t' || c = '\n' || c = '\r' || c = '\x0b' || c = '\x0c'

/-- `trim()` on a character list: drop whitespace at both ends. -/
def trimChars (l : List Char) : List Char :=
  ((l.dropWhile isJsWhitespace).reverse.dropWhile isJsWhitespace).reverse

/-- `String.prototype.trim()`. -/
def jsTrim (s : String) : String :=
  ⟨trimChars s.toList⟩

/-- `String.prototype.toUpperCase()` (ASCII). -/
def jsToUpper (s : String) : String :=
  ⟨s.toList.map Char.toUpper⟩

/-- Character class `[A-Z0-9]` of the regex in `enum.ts` (applied after
uppercasing). -/
def isUpperAlnum (c : Char) : Bool :=
  ('A' ≤ c && c ≤ 'Z') || ('0' ≤ c && c ≤ '9')

/-- First step of `.replace(/[^A-Z0-9]+/g, "_")`: send every character outside
`[A-Z0-9]` to an underscore. -/
def underscoreNonAlnum (l : List Char) : List Char :=
  l.map (fun c => if isUpperAlnum c then c else '_')

/-- Second step of `.replace(/[^A-Z0-9]+/g, "_")`: collapse adjacent
underscores, so that each maximal run of non-alphanumerics becomes a single
underscore. -/
def squeezeUnderscores : List Char → List Char
  | [] => []
  | [c] => [c]
  | a :: b :: rest =>
    if a = '_' && b = '_' then squeezeUnderscores (b :: rest)
    else a :: squeezeUnderscores (b :: rest)

/-- `.replace(/[^A-Z0-9]+/g, "_")` on a character list. -/
def collapseRuns (l : List Char) : List Char :=
  squeezeUnderscores (underscoreNonAlnum l)

def dropLeadUnderscores (l : List Char) : List Char :=
  l.dropWhile (fun c => c = '_')

def dropTrailUnderscores (l : List Char) : List Char :=
  (l.reverse.dropWhile (fun c => c = '_')).reverse

/-- `.replace(/^_+|_+$/g, "")`: remove the leading and the trailing run of
underscores. -/
def stripEdgeUnderscores (l : List Char) : List Char :=
  dropLeadUnderscores (dropTrailUnderscores l)

/-! ## `enum.ts` -/

/-- `isEmptyLike` from `enum.ts`: `String(value).trim().toUpperCase()` is empty
or one of the textual null markers. -/
def isEmptyLike (s : String) : Bool :=
  let normalized := jsToUpper (jsTrim s)
  normalized = "" || normalized = "N/A" || normalized = "NAN" ||
    normalized = "NONE" || normalized = "NULL"

/-- `normalizeSingle` from `enum.ts`: `null` for empty-like values, otherwise
uppercase, trim, collapse non-alphanumeric runs to `_`, strip edge
underscores. -/
def normalizeSingle (s : String) : Option String :=
  if isEmptyLike s then none
  else some ⟨stripEdgeUnderscores (collapseRuns (trimChars (s.toList.map Char.toUpper)))⟩

/-- Input shape of `forceEnumFormat`: a string or an array of strings. -/
inductive EnumInput where
  | str (s : String)
  | arr (elems : List String)
deriving DecidableEq

/-- `forceEnumFormat` from `enum.ts`. The array branch maps `normalizeSingle`
over the elements, keeps only truthy results (dropping `null` and `""`), and
joins with `", "`; an empty survivor list and falsy scalar results give
`"N/A"`. -/
def forceEnumFormat : EnumInput → String
  | .arr xs =>
    let normalized := ((xs.map normalizeSingle).filterMap id).filter (fun s => s ≠ "")
    if normalized.length > 0 then String.intercalate ", " normalized else "N/A"
  | .str s =>
    match normalizeSingle s with
    | some t => if t ≠ "" then t else "N/A"
    | none => "N/A"

/-- The scalar normalization pipeline exactly as the specification words it:
uppercase the input, collapse every non-alphanumeric run to one underscore,
trim leading and trailing underscores (no whitespace trim is mentioned). -/
def specScalarCore (s : String) : String :=
  ⟨stripEdgeUnderscores (collapseRuns (jsToUpper s).toList)⟩

/-- The specification's full per-value normalization: empty-like inputs map to
the sentinel, everything else goes through `specScalarCore`. -/
def specNormalizeValue (s : String) : String :=
  if isEmptyLike s then "N/A" else specScalarCore s

/-- The specification's array clause, word for word: normalize each element,
then join the results with `", "`. -/
def specArrayFormat (xs : List String) : String :=
  String.intercalate ", " (xs.map specNormalizeValue)

example : forceEnumFormat (.str "Java Script!") = "JAVA_SCRIPT" := by decide
example : forceEnumFormat (.str "  n/a ") = "N/A" := by decide
example : forceEnumFormat (.arr ["Python", "C++"]) = "PYTHON, C" := by decide
example : forceEnumFormat (.arr ["Python", "n/a"]) = "PYTHON" := by decide
example : specArrayFormat ["Python", "n/a"] = "PYTHON, N/A" := by decide

/-! Lemmas showing that the code's extra whitespace trim before collapsing is
invisible after underscore stripping, so the code realizes exactly the
pipeline the specification words describe. -/

lemma isUpperAlnum_of_ws {c : Char} (h : isJsWhitespace c = true) :
    isUpperAlnum c = false := by
  simp only [isJsWhitespace, Bool.or_eq_true, decide_eq_true_eq] at h
  rcases h with ((((h | h) | h) | h) | h) | h <;> subst h <;> decide

lemma dropLead_squeeze_underscore_cons (xs : List Char) :
    dropLeadUnderscores (squeezeUnderscores ('_' :: xs)) =
      dropLeadUnderscores (squeezeUnderscores xs) := by
  cases xs with
  | nil => decide
  | cons b rest =>
    by_cases hb : b = '_' <;>
      simp [squeezeUnderscores, hb, dropLeadUnderscores, List.dropWhile_cons]

lemma dropWhile_append_single (p : Char → Bool) (ys : List Char) (a : Char) :
    (ys ++ [a]).dropWhile p =
      if ys.dropWhile p = [] then (if p a then [] else [a])
      else ys.dropWhile p ++ [a] := by
  induction ys with
  | nil => simp [List.dropWhile_cons]
  | cons c ys ih =>
    by_cases hc : p c
    · simpa [List.dropWhile_cons, hc] using ih
    · simp [List.dropWhile_cons, hc]

lemma dropTrail_cons (a : Char) (y : List Char) :
    dropTrailUnderscores (a :: y) =
      if dropTrailUnderscores y = [] then (if a = '_' then [] else [a])
      else a :: dropTrailUnderscores y := by
  unfold dropTrailUnderscores
  rw [List.reverse_cons, dropWhile_append_single]
  by_cases he : y.reverse.dropWhile (fun c => c = '_') = []
  · by_cases ha : a = '_' <;> simp [he, ha]
  · have : ¬ (y.reverse.dropWhile (fun c => c = '_')).reverse = [] := by
      simpa [List.reverse_eq_nil_iff] using he
    simp [he, this]

lemma stripEdge_squeeze_underscore_cons (xs : List Char) :
    stripEdgeUnderscores (squeezeUnderscores ('_' :: xs)) =
      stripEdgeUnderscores (squeezeUnderscores xs) := by
  cases xs with
  | nil => decide
  | cons b rest =>
    by_cases hb : b = '_'
    · simp [squeezeUnderscores, hb]
    · have hsq : squeezeUnderscores ('_' :: b :: rest) =
          '_' :: squeezeUnderscores (b :: rest) := by
        simp [squeezeUnderscores, hb]
      rw [hsq]
      unfold stripEdgeUnderscores
      rw [dropTrail_cons]
      by_cases he : dropTrailUnderscores (squeezeUnderscores (b :: rest)) = []
      · simp [he, dropLeadUnderscores]
      · simp [he, dropLeadUnderscores, List.dropWhile_cons]

lemma dropTrail_squeeze_append_underscore (xs : List Char) :
    dropTrailUnderscores (squeezeUnderscores (xs ++ ['_'])) =
      dropTrailUnderscores (squeezeUnderscores xs) := by
  induction xs with
  | nil => decide
  | cons a tail ih =>
    cases tail with
    | nil =>
      by_cases ha : a = '_'
      · subst ha; decide
      · simp [squeezeUnderscores, ha, dropTrail_cons, dropTrailUnderscores]
    | cons b rest =>
      have hl : (a :: b :: rest) ++ ['_'] = a :: b :: (rest ++ ['_']) := by simp
      rw [hl]
      by_cases hab : a = '_' ∧ b = '_'
      · obtain ⟨ha, hb⟩ := hab
        subst ha; subst hb
        have h1 : squeezeUnderscores ('_' :: '_' :: (rest ++ ['_'])) =
            squeezeUnderscores ('_' :: (rest ++ ['_'])) := by
          simp [squeezeUnderscores]
        have h2 : squeezeUnderscores ('_' :: '_' :: rest) =
            squeezeUnderscores ('_' :: rest) := by
          simp [squeezeUnderscores]
        rw [h1, h2]
        simpa using ih
      · have hcond : ¬ (a = '_' && b = '_') = true := by
          intro hc
          exact hab (by simpa [Bool.and_eq_true, decide_eq_true_eq] using hc)
        have h1 : squeezeUnderscores (a :: b :: (rest ++ ['_'])) =
            a :: squeezeUnderscores (b :: (rest ++ ['_'])) := by
          simp only [squeezeUnderscores, if_neg hcond]
        have h2 : squeezeUnderscores (a :: b :: rest) =
            a :: squeezeUnderscores (b :: rest) := by
          simp only [squeezeUnderscores, if_neg hcond]
        rw [h1, h2, dropTrail_cons, dropTrail_cons]
        have ih' : dropTrailUnderscores (squeezeUnderscores (b :: (rest ++ ['_']))) =
            dropTrailUnderscores (squeezeUnderscores (b :: rest)) := by
          simpa using ih
        rw [ih']

lemma stripEdge_squeeze_append_underscore (xs : List Char) :
    stripEdgeUnderscores (squeezeUnderscores (xs ++ ['_'])) =
      stripEdgeUnderscores (squeezeUnderscores xs) := by
  unfold stripEdgeUnderscores
  rw [dropTrail_squeeze_append_underscore]

lemma stripEdge_collapse_dropWhile_ws (l : List Char) :
    stripEdgeUnderscores (squeezeUnderscores (underscoreNonAlnum (l.dropWhile isJsWhitespace))) =
      stripEdgeUnderscores (squeezeUnderscores (underscoreNonAlnum l)) := by
  induction l with
  | nil => rfl
  | cons c l ih =>
    by_cases hc : isJsWhitespace c
    · have hrepl : underscoreNonAlnum (c :: l) = '_' :: underscoreNonAlnum l := by
        simp [underscoreNonAlnum, isUpperAlnum_of_ws hc]
      rw [List.dropWhile_cons_of_pos hc, ih, hrepl,
        stripEdge_squeeze_underscore_cons]
    · rw [List.dropWhile_cons_of_neg (by simpa using hc)]

lemma stripEdge_collapse_dropTrailWhile_ws (m : List Char) :
    stripEdgeUnderscores (squeezeUnderscores (underscoreNonAlnum ((m.dropWhile isJsWhitespace).reverse))) =
      stripEdgeUnderscores (squeezeUnderscores (underscoreNonAlnum m.reverse)) := by
  induction m with
  | nil => rfl
  | cons c m ih =>
    by_cases hc : isJsWhitespace c
    · have hrev : (c :: m).reverse = m.reverse ++ [c] := by simp
      have hrepl : underscoreNonAlnum (m.reverse ++ [c]) =
          underscoreNonAlnum m.reverse ++ ['_'] := by
        simp [underscoreNonAlnum, isUpperAlnum_of_ws hc]
      rw [List.dropWhile_cons_of_pos hc, ih, hrev, hrepl,
        stripEdge_squeeze_append_underscore]
    · rw [List.dropWhile_cons_of_neg (by simpa using hc)]

/-- The code's `toUpperCase().trim()` followed by run collapsing and edge
stripping computes exactly the specification's trimless pipeline. -/
lemma stripEdge_collapse_trim (l : List Char) :
    stripEdgeUnderscores (collapseRuns (trimChars l)) =
      stripEdgeUnderscores (collapseRuns l) := by
  unfold trimChars collapseRuns
  calc stripEdgeUnderscores (squeezeUnderscores (underscoreNonAlnum
          (((l.dropWhile isJsWhitespace).reverse.dropWhile isJsWhitespace).reverse)))
      = stripEdgeUnderscores (squeezeUnderscores (underscoreNonAlnum
          ((l.dropWhile isJsWhitespace).reverse.reverse))) := by
        have := stripEdge_collapse_dropTrailWhile_ws ((l.dropWhile isJsWhitespace).reverse)
        simpa using this
    _ = stripEdgeUnderscores (squeezeUnderscores (underscoreNonAlnum l)) := by
        rw [List.reverse_reverse]
        exact stripEdge_collapse_dropWhile_ws l

/-- `normalizeSingle` agrees with the specification's per-value pipeline. -/
lemma normalizeSingle_eq_spec (s : String) :
    normalizeSingle s = if isEmptyLike s then none else some (specScalarCore s) := by
  unfold normalizeSingle specScalarCore
  by_cases h : isEmptyLike s
  · simp [h]
  · simp only [h, if_neg, Bool.false_eq_true, not_false_iff, if_false]
    have : stripEdgeUnderscores (collapseRuns (trimChars (s.toList.map Char.toUpper))) =
        stripEdgeUnderscores (collapseRuns (jsToUpper s).toList) := by
      rw [stripEdge_collapse_trim]
      rfl
    rw [this]

lemma arr_normalized_eq (xs : List String) :
    ((xs.map normalizeSingle).filterMap id).filter (fun s => s ≠ "") =
      xs.filterMap (fun x =>
        if isEmptyLike x then none
        else if specScalarCore x = "" then none else some (specScalarCore x)) := by
  induction xs with
  | nil => rfl
  | cons x xs ih =>
    simp only [List.map_cons, List.filterMap_cons]
    rw [normalizeSingle_eq_spec]
    by_cases h : isEmptyLike x
    · simpa [h] using ih
    · by_cases h2 : specScalarCore x = "" <;>
        · simp only [h, h2, Bool.false_eq_true, if_false, if_true, List.filter_cons,
            decide_not]
          simp [h2]
          simpa using ih

/-- C6 counterexample: on the array `["Python", "n/a"]` the code drops the
empty-like element entirely and returns `"PYTHON"`, while the claim's rule
"normalize each element then join the results with `, `" produces
`"PYTHON, N/A"`. -/
theorem force_enum_array_join_counterexample :
    forceEnumFormat (.arr ["Python", "n/a"]) = "PYTHON" ∧
    specArrayFormat ["Python", "n/a"] = "PYTHON, N/A" ∧
    ("PYTHON" : String) ≠ "PYTHON, N/A" :=
  ⟨by decide, by decide, by decide⟩

/-- C6 (amended): `forceEnumFormat` maps `"Java Script!"` to `"JAVA_SCRIPT"`,
`"  n/a "` to `"N/A"` and `["Python","C++"]` to `"PYTHON, C"`; a scalar input
is normalized exactly by the claimed pipeline (uppercase, collapse
non-alphanumeric runs to one underscore, trim edge underscores), with
empty-like inputs and inputs whose normalization is empty yielding `"N/A"`;
an array input normalizes each element, drops elements that are empty-like or
normalize to the empty string, joins the survivors with `", "`, and yields
`"N/A"` when no element survives. -/
theorem force_enum_format_characterization :
    forceEnumFormat (.str "Java Script!") = "JAVA_SCRIPT" ∧
    forceEnumFormat (.str "  n/a ") = "N/A" ∧
    forceEnumFormat (.arr ["Python", "C++"]) = "PYTHON, C" ∧
    (∀ s : String, forceEnumFormat (.str s) =
      if isEmptyLike s then "N/A"
      else if specScalarCore s = "" then "N/A" else specScalarCore s) ∧
    (∀ xs : List String, forceEnumFormat (.arr xs) =
      (let kept := xs.filterMap (fun x =>
          if isEmptyLike x then none
          else if specScalarCore x = "" then none else some (specScalarCore x));
       if kept.isEmpty then "N/A" else String.intercalate ", " kept)) := by
  refine ⟨by decide, by decide, by decide, ?_, ?_⟩
  · intro s
    simp only [forceEnumFormat]
    rw [normalizeSingle_eq_spec]
    by_cases h : isEmptyLike s
    · simp [h]
    · by_cases h2 : specScalarCore s = "" <;> simp [h, h2]
  · intro xs
    simp only [forceEnumFormat]
    rw [arr_normalized_eq]
    set kept := xs.filterMap (fun x =>
      if isEmptyLike x then none
      else if specScalarCore x = "" then none else some (specScalarCore x)) with hk
    cases kept <;> simp

/-! ## `types.ts` / `fs.ts`: extracted items and deduplication -/

/-- `QaItem` from `types.ts`: required `question_text`, optional answer and
taxonomy fields. -/
structure QaItem where
  question_text : String
  answer_text : Option String := none
  question_type : Option String := none
  question_concept : Option String := none
  difficulty : Option String := none
  topic : Option String := none
  sub_topic : Option String := none
  relevancy_score : Option String := none
  curriculum_coverage : Option String := none
deriving DecidableEq

/-- The key used by `deduplicateQna` and `mergeClassification`:
`String(item.question_text ?? "").trim()`. -/
def qaKey (i : QaItem) : String := jsTrim i.question_text

/-- Loop of `deduplicateQna`; `seen` models the `Set` of keys already kept. -/
def dedupGo (seen : List String) : List QaItem → List QaItem
  | [] => []
  | i :: rest =>
    if qaKey i = "" || seen.contains (qaKey i) then dedupGo seen rest
    else i :: dedupGo (qaKey i :: seen) rest

/-- `deduplicateQna` from `fs.ts`: drop items whose trimmed `question_text` is
empty or was seen before; keep the rest in their original order. -/
def deduplicateQna (items : List QaItem) : List QaItem := dedupGo [] items

/-- Deduplication exactly as the claim words it: by exact `question_text`
string equality, keeping the first occurrence of each `question_text`. -/
def dedupExactGo (seen : List String) : List QaItem → List QaItem
  | [] => []
  | i :: rest =>
    if seen.contains i.question_text then dedupExactGo seen rest
    else i :: dedupExactGo (i.question_text :: seen) rest

def dedupByExactQuestionText (items : List QaItem) : List QaItem :=
  dedupExactGo [] items

/-- An extracted item carrying only a question text. -/
def mkQaItem (q : String) : QaItem := { question_text := q }

lemma dedupGo_sublist (seen : List String) (items : List QaItem) :
    (dedupGo seen items).Sublist items := by
  induction items generalizing seen with
  | nil => simp [dedupGo]
  | cons i rest ih =>
    simp only [dedupGo]
    split
    · exact (ih seen).cons i
    · exact (ih (qaKey i :: seen)).cons₂ i

lemma dedupGo_fresh (seen : List String) (items : List QaItem) :
    ((dedupGo seen items).map qaKey).Nodup ∧
      ∀ i ∈ dedupGo seen items, qaKey i ≠ "" ∧ qaKey i ∉ seen := by
  induction items generalizing seen with
  | nil => simp [dedupGo]
  | cons i rest ih =>
    simp only [dedupGo]
    split
    · exact ih seen
    · rename_i h
      have h' : ¬ (qaKey i = "" ∨ qaKey i ∈ seen) := by
        simpa using h
      push_neg at h'
      obtain ⟨hne, hmem⟩ := h'
      obtain ⟨hnodup, hfresh⟩ := ih (qaKey i :: seen)
      refine ⟨?_, ?_⟩
      · refine List.nodup_cons.mpr ⟨?_, hnodup⟩
        intro hk
        obtain ⟨j, hj, hkey⟩ := List.mem_map.mp hk
        exact (hfresh j hj).2 (by simp [hkey])
      · intro j hj
        rcases List.mem_cons.mp hj with hj | hj
        · subst hj; exact ⟨hne, hmem⟩
        · obtain ⟨hne', hmem'⟩ := hfresh j hj
          exact ⟨hne', fun hs => hmem' (List.mem_cons_of_mem _ hs)⟩

lemma dedupGo_find? (seen : List String) (items : List QaItem) (k : String)
    (hk : k ≠ "") (hs : k ∉ seen) :
    (dedupGo seen items).find? (fun i => qaKey i = k) =
      items.find? (fun i => qaKey i = k) := by
  induction items generalizing seen with
  | nil => simp [dedupGo]
  | cons i rest ih =>
    simp only [dedupGo]
    split
    · rename_i h
      have h' : qaKey i = "" ∨ qaKey i ∈ seen := by
        simpa using h
      have hne : qaKey i ≠ k := by
        rcases h' with h' | h'
        · intro he; exact hk (he ▸ h')
        · intro he; exact hs (he ▸ h')
      rw [List.find?_cons_of_neg _ (by simpa using hne)]
      exact ih seen hs
    · by_cases he : qaKey i = k
      · rw [List.find?_cons_of_pos _ (by simpa using he),
          List.find?_cons_of_pos _ (by simpa using he)]
      · rw [List.find?_cons_of_neg _ (by simpa using he),
          List.find?_cons_of_neg _ (by simpa using he)]
        exact ih (qaKey i :: seen) (by
          intro hmem
          rcases List.mem_cons.mp hmem with hmem | hmem
          · exact he hmem.symm
          · exact hs hmem)

/-- C7 counterexample: the code deduplicates by the trimmed key, so
`"Q1"` and `"Q1 "` collapse into one item, while deduplication "by exact
`question_text` equality" as claimed keeps both. -/
theorem dedup_exact_equality_counterexample :
    deduplicateQna [mkQaItem "Q1", mkQaItem "Q1 "] = [mkQaItem "Q1"] ∧
    dedupByExactQuestionText [mkQaItem "Q1", mkQaItem "Q1 "] =
      [mkQaItem "Q1", mkQaItem "Q1 "] ∧
    ([mkQaItem "Q1"] : List QaItem) ≠ [mkQaItem "Q1", mkQaItem "Q1 "] :=
  ⟨by decide, by decide, by decide⟩

/-- C7 (amended): `deduplicateQna` deduplicates by trimmed `question_text`,
dropping items whose trimmed question text is empty; it returns a sublist of
its input (original relative order preserved), the kept trimmed keys are
pairwise distinct and nonempty, for every nonempty trimmed key the kept item
is exactly the first input item with that key, and
`[{"Q1"},{"Q2"},{"Q1"}]` maps to `[{"Q1"},{"Q2"}]`. -/
theorem dedup_first_seen_order :
    (∀ items : List QaItem, (deduplicateQna items).Sublist items) ∧
    (∀ items : List QaItem, ((deduplicateQna items).map qaKey).Nodup) ∧
    (∀ items : List QaItem, ∀ i ∈ deduplicateQna items, qaKey i ≠ "") ∧
    (∀ (items : List QaItem) (k : String), k ≠ "" →
      (deduplicateQna items).find? (fun i => qaKey i = k) =
        items.find? (fun i => qaKey i = k)) ∧
    deduplicateQna [mkQaItem "Q1", mkQaItem "Q2", mkQaItem "Q1"] =
      [mkQaItem "Q1", mkQaItem "Q2"] := by
  refine ⟨fun items => dedupGo_sublist [] items,
    fun items => (dedupGo_fresh [] items).1,
    fun items i hi => ((dedupGo_fresh [] items).2 i hi).1,
    fun items k hk => dedupGo_find? [] items k hk (by simp),
    by decide⟩

/-- Witness for the amended C7 theorem at concrete inputs. -/
theorem dedup_first_seen_order_witness :
    (deduplicateQna [mkQaItem "Q1", mkQaItem "Q1 "]).find?
        (fun i => qaKey i = "Q1") =
      ([mkQaItem "Q1", mkQaItem "Q1 "] : List QaItem).find?
        (fun i => qaKey i = "Q1") ∧
    qaKey (mkQaItem "Q1") ≠ "" :=
  ⟨dedup_first_seen_order.2.2.2.1 [mkQaItem "Q1", mkQaItem "Q1 "] "Q1" (by decide),
    dedup_first_seen_order.2.2.1 [mkQaItem "Q1"] (mkQaItem "Q1") (by decide)⟩

/-! ## `fs.ts`: classification merge -/

/-- A classified item returned by the model; fields that are present carry the
string value `String(match[field])` of the source. -/
structure ClassifiedItem where
  question_text : Option String := none
  question_type : Option String := none
  question_concept : Option String := none
  difficulty : Option String := none
  topic : Option String := none
  sub_topic : Option String := none
  relevancy_score : Option String := none
  curriculum_coverage : Option String := none
deriving DecidableEq

/-- The index key of a classified item:
`String(item.question_text ?? "").trim()`. -/
def cKey (c : ClassifiedItem) : String := jsTrim (c.question_text.getD "")

/-- Lookup in the `Map` built by `mergeClassification`: only nonempty keys are
inserted, and a later `set` with the same key overwrites an earlier one, so a
lookup returns the last classified item carrying the given nonempty key. -/
def indexGet (classified : List ClassifiedItem) (k : String) : Option ClassifiedItem :=
  if k = "" then none else classified.reverse.find? (fun c => cKey c = k)

/-- One classification field after the two merge loops: the match's value when
the match defines the field, otherwise the original value, otherwise the
sentinel `"N/A"`. -/
def mergedField (m : Option ClassifiedItem) (get : ClassifiedItem → Option String)
    (orig : Option String) : String :=
  match m.bind get with
  | some v => v
  | none => orig.getD "N/A"

/-- `mergeClassification` from `fs.ts`. -/
def mergeClassification (original : List QaItem) (classified : List ClassifiedItem) :
    List QaItem :=
  original.map (fun item =>
    let m := indexGet classified (qaKey item)
    { question_text := item.question_text
      answer_text := item.answer_text
      question_type := some (mergedField m (fun c => c.question_type) item.question_type)
      question_concept := some (mergedField m (fun c => c.question_concept) item.question_concept)
      difficulty := some (mergedField m (fun c => c.difficulty) item.difficulty)
      topic := some (mergedField m (fun c => c.topic) item.topic)
      sub_topic := some (mergedField m (fun c => c.sub_topic) item.sub_topic)
      relevancy_score := some (mergedField m (fun c => c.relevancy_score) item.relevancy_score)
      curriculum_coverage := some (mergedField m (fun c => c.curriculum_coverage) item.curriculum_coverage) })

lemma mergedField_none (get : ClassifiedItem → Option String) (orig : Option String) :
    mergedField none get orig = orig.getD "N/A" := rfl

lemma mergedField_some (c : ClassifiedItem) (get : ClassifiedItem → Option String)
    (orig : Option String) :
    mergedField (some c) get orig = (get c).getD (orig.getD "N/A") := by
  cases h : get c <;> simp [mergedField, h]

/-- C5 counterexample: a source item with a preset `difficulty` and no
classification match keeps `"EASY"`; it does not receive `"N/A"` for every one
of the seven taxonomy fields as the claim states. -/
theorem merge_unmatched_keeps_preset_counterexample :
    mergeClassification [{ question_text := "Q", difficulty := some "EASY" }] [] =
      [{ question_text := "Q", question_type := some "N/A",
         question_concept := some "N/A", difficulty := some "EASY",
         topic := some "N/A", sub_topic := some "N/A",
         relevancy_score := some "N/A", curriculum_coverage := some "N/A" }] ∧
    some "EASY" ≠ some ("N/A" : String) :=
  ⟨by decide, by decide⟩

/-- C5 (amended): `mergeClassification` preserves length, `question_text` and
`answer_text`; matching is by trimmed `question_text` (last match wins, empty
keys never match); a source item with no trim-matching classified item keeps
each already-present taxonomy value and receives `"N/A"` only for taxonomy
fields that are absent; a matched item takes the match's values for exactly
the fields the match defines, falling back to its own value and then to
`"N/A"`. -/
theorem merge_classification_field_law :
    ∀ (original : List QaItem) (classified : List ClassifiedItem),
      (mergeClassification original classified).length = original.length ∧
      ∀ (i : Nat) (item merged : QaItem),
        original[i]? = some item →
        (mergeClassification original classified)[i]? = some merged →
        merged.question_text = item.question_text ∧
        merged.answer_text = item.answer_text ∧
        ((∀ c ∈ classified, cKey c ≠ qaKey item) →
          merged.question_type = some (item.question_type.getD "N/A") ∧
          merged.question_concept = some (item.question_concept.getD "N/A") ∧
          merged.difficulty = some (item.difficulty.getD "N/A") ∧
          merged.topic = some (item.topic.getD "N/A") ∧
          merged.sub_topic = some (item.sub_topic.getD "N/A") ∧
          merged.relevancy_score = some (item.relevancy_score.getD "N/A") ∧
          merged.curriculum_coverage = some (item.curriculum_coverage.getD "N/A")) ∧
        (∀ c : ClassifiedItem, qaKey item ≠ "" →
          classified.reverse.find? (fun x => cKey x = qaKey item) = some c →
          merged.question_type = some (c.question_type.getD (item.question_type.getD "N/A")) ∧
          merged.question_concept = some (c.question_concept.getD (item.question_concept.getD "N/A")) ∧
          merged.difficulty = some (c.difficulty.getD (item.difficulty.getD "N/A")) ∧
          merged.topic = some (c.topic.getD (item.topic.getD "N/A")) ∧
          merged.sub_topic = some (c.sub_topic.getD (item.sub_topic.getD "N/A")) ∧
          merged.relevancy_score = some (c.relevancy_score.getD (item.relevancy_score.getD "N/A")) ∧
          merged.curriculum_coverage = some (c.curriculum_coverage.getD (item.curriculum_coverage.getD "N/A"))) := by
  intro original classified
  refine ⟨by simp [mergeClassification], ?_⟩
  intro i item merged ho hm
  rw [mergeClassification, List.getElem?_map, ho, Option.map_some'] at hm
  injection hm with hm
  subst hm
  refine ⟨rfl, rfl, ?_, ?_⟩
  · intro hnone
    have hidx : indexGet classified (qaKey item) = none := by
      unfold indexGet
      by_cases hk : qaKey item = ""
      · simp [hk]
      · rw [if_neg hk]
        apply List.find?_eq_none.mpr
        intro c hc
        simpa using hnone c (List.mem_reverse.mp hc)
    simp [hidx, mergedField_none]
  · intro c hk hfind
    have hidx : indexGet classified (qaKey item) = some c := by
      unfold indexGet
      rw [if_neg hk, hfind]
    simp [hidx, mergedField_some]

/-- A concrete classified item used to exercise the matched branch of the
merge law. -/
def cMatchExample : ClassifiedItem := { question_text := some "Q", difficulty := some "HARD" }

/-- Witness for the amended C5 theorem: a matched source item takes the
match's `difficulty`. -/
theorem merge_classification_field_law_witness :
    ({ question_text := "Q", question_type := some "N/A", question_concept := some "N/A",
       difficulty := some "HARD", topic := some "N/A", sub_topic := some "N/A",
       relevancy_score := some "N/A", curriculum_coverage := some "N/A" } : QaItem).difficulty =
      some (cMatchExample.difficulty.getD ((mkQaItem "Q").difficulty.getD "N/A")) :=
  (((merge_classification_field_law [mkQaItem "Q"] [cMatchExample]).2 0 (mkQaItem "Q")
      { question_text := "Q", question_type := some "N/A", question_concept := some "N/A",
        difficulty := some "HARD", topic := some "N/A", sub_topic := some "N/A",
        relevancy_score := some "N/A", curriculum_coverage := some "N/A" }
      (by decide) (by decide)).2.2.2 cMatchExample (by decide) (by decide)).2.2.1

/-! ## `fs.ts`: chunked transcript extraction -/

/-- `transcript.indexOf("\n", pos)`: index of the first newline at or after
`pos`, if any. -/
def nextNewlinePos (ts : List Char) (pos : Nat) : Option Nat :=
  match (ts.drop pos).findIdx? (fun c => c = '\n') with
  | some j => some (pos + j)
  | none => none

/-- The cursor update of the chunking loop: `start += chunkSize - overlap`. -/
def nextStart (chunkSize overlap start : Int) : Int :=
  start + (chunkSize - overlap)

/-- The window end of one loop iteration: cut at `start + chunkSize` (clamped
to the text length) and snap forward to the next newline when one falls fewer
than 200 characters past the cut. -/
def snapEnd (ts : List Char) (chunkSize start : Int) : Int :=
  let len : Int := ts.length
  let e := min (start + chunkSize) len
  if e < len then
    match nextNewlinePos ts e.toNat with
    | some idx => if (idx : Int) - e < 200 then (idx : Int) else e
    | none => e
  else e

/-- The loop of `processLargeTranscriptWithOverlap`, as the list of
`(start, end)` windows submitted for extraction, one per iteration; `none`
means the loop has not terminated within `fuel` iterations. -/
def chunkWindows (ts : List Char) (chunkSize overlap : Int) :
    Nat → Int → Option (List (Int × Int))
  | 0, start =>
    if start < (ts.length : Int) then none else some []
  | fuel + 1, start =>
    if start < (ts.length : Int) then
      let e := snapEnd ts chunkSize start
      let next := nextStart chunkSize overlap start
      if (ts.length : Int) ≤ next then some [(start, e)]
      else (chunkWindows ts chunkSize overlap fuel next).map
        (fun ws => (start, e) :: ws)
    else some []

lemma chunkWindows_stall (fuel : Nat) :
    chunkWindows ['a'] 1 1 fuel 0 = none := by
  induction fuel with
  | zero => decide
  | succ fuel ih => simp [chunkWindows, nextStart, ih]

/-- C1 counterexample: with `chunkSize = overlap = 1` the cursor does not
advance (`nextStart 1 1 0 = 0`), and on the one-character transcript `"a"` the
loop never terminates, however much fuel it is given — against the claim that
the cursor advances strictly and the loop terminates for every configuration
including `overlap ≥ chunkSize`. -/
theorem chunking_misconfig_counterexample :
    nextStart 1 1 0 = 0 ∧
    ¬ ∃ fuel : Nat, (chunkWindows ['a'] 1 1 fuel 0).isSome = true := by
  refine ⟨by decide, ?_⟩
  rintro ⟨fuel, hf⟩
  rw [chunkWindows_stall fuel] at hf
  simp at hf

lemma chunkWindows_isSome (ts : List Char) (chunkSize overlap : Int)
    (h : overlap < chunkSize) :
    ∀ (fuel : Nat) (start : Int), (ts.length : Int) - start ≤ (fuel : Int) →
      (chunkWindows ts chunkSize overlap fuel start).isSome = true := by
  intro fuel
  induction fuel with
  | zero =>
    intro start hle
    have hs : ¬ start < (ts.length : Int) := by
      simp only [Nat.cast_zero] at hle
      omega
    simp [chunkWindows, hs]
  | succ fuel ih =>
    intro start hle
    by_cases hs : start < (ts.length : Int)
    · rw [chunkWindows, if_pos hs]
      by_cases hn : (ts.length : Int) ≤ nextStart chunkSize overlap start
      · simp [hn]
      · have hstep : (ts.length : Int) - nextStart chunkSize overlap start ≤ (fuel : Int) := by
          unfold nextStart
          push_cast at hle ⊢
          omega
        have hrec := ih (nextStart chunkSize overlap start) hstep
        simp only [if_neg hn]
        cases hcw : chunkWindows ts chunkSize overlap fuel (nextStart chunkSize overlap start) with
        | none => rw [hcw] at hrec; simp at hrec
        | some ws => simp
    · simp [chunkWindows, hs]

/-- C1 (amended): whenever `overlap < chunkSize` the cursor of
`processLargeTranscriptWithOverlap` advances strictly monotonically on every
iteration and the loop terminates within `length + 1` iterations; but when
`overlap ≥ chunkSize` the cursor does not advance and the loop runs forever on
any nonempty transcript (see the counterexample). -/
theorem chunking_terminates_when_step_positive :
    ∀ (ts : List Char) (chunkSize overlap : Int), overlap < chunkSize →
      (∀ start : Int, start < nextStart chunkSize overlap start) ∧
      (chunkWindows ts chunkSize overlap (ts.length + 1) 0).isSome = true := by
  intro ts cs ov h
  refine ⟨fun start => by unfold nextStart; omega, ?_⟩
  apply chunkWindows_isSome ts cs ov h
  push_cast
  omega

/-- Witness for the amended C1 theorem at a concrete configuration. -/
theorem chunking_terminates_witness :
    (0 : Int) < nextStart 2 1 0 ∧
    (chunkWindows ['a', 'b', 'c'] 2 1 4 0).isSome = true :=
  ⟨(chunking_terminates_when_step_positive ['a', 'b', 'c'] 2 1 (by norm_num)).1 0,
    (chunking_terminates_when_step_positive ['a', 'b', 'c'] 2 1 (by norm_num)).2⟩

/-- C8 (confirmed): with `chunkSize = 18000` and `overlap = 1200`, a
25,000-character transcript always yields exactly the two windows starting at
0 and 16800, whatever its content — the newline snap can move a window's end
but never the cursor. -/
theorem chunking_two_windows_25000 :
    ∀ ts : List Char, ts.length = 25000 →
      chunkWindows ts 18000 1200 25001 0 =
        some [(0, snapEnd ts 18000 0), (16800, snapEnd ts 18000 16800)] := by
  intro ts h
  have hl : (ts.length : Int) = 25000 := by rw [h]; norm_num
  have step2 : chunkWindows ts 18000 1200 25000 16800 =
      some [(16800, snapEnd ts 18000 16800)] := by
    rw [show (25000 : Nat) = 24999 + 1 by norm_num]
    rw [chunkWindows, if_pos (by rw [hl]; norm_num)]
    rw [if_pos (by unfold nextStart; rw [hl]; norm_num)]
  rw [show (25001 : Nat) = 25000 + 1 by norm_num]
  rw [chunkWindows, if_pos (by rw [hl]; norm_num)]
  rw [if_neg (by unfold nextStart; rw [hl]; norm_num)]
  have hns : nextStart 18000 1200 0 = 16800 := by unfold nextStart; norm_num
  rw [hns, step2]
  rfl

/-- Witness for the C8 theorem on a concrete 25,000-character transcript. -/
theorem chunking_two_windows_witness :
    chunkWindows (List.replicate 25000 'a') 18000 1200 25001 0 =
      some [(0, snapEnd (List.replicate 25000 'a') 18000 0),
        (16800, snapEnd (List.replicate 25000 'a') 18000 16800)] :=
  chunking_two_windows_25000 _ (by rw [List.length_replicate])

/-! ## `jobManager.js` -/

inductive JobState where
  | queued
  | running
  | success
  | error
  | cancelled
deriving DecidableEq

/-- `isTerminalState` from `jobManager.js`. -/
def isTerminalState : JobState → Bool
  | .success => true
  | .error => true
  | .cancelled => true
  | _ => false

/-- Position of a state along `queued → running → {success, error, cancelled}`. -/
def stateRank : JobState → Nat
  | .queued => 0
  | .running => 1
  | _ => 2

/-- One job record of the registry. Result payloads are abstracted to strings
and timestamps to naturals. -/
structure Job where
  id : String
  state : JobState
  message : String
  result : Option String := none
  partialResult : Option String := none
  progress : Option Nat := none
  error : Option String := none
  cancelRequested : Bool := false
  createdAt : Nat := 0
  updatedAt : Nat := 0
deriving DecidableEq

/-- The optional second argument of the `update` callback: an optional
`partialResult`, and a `progress` entry that may be present (possibly holding
`undefined`, modelled `none`) or absent. -/
structure JobUpdatePayload where
  partialResult : Option String := none
  progressGiven : Bool := false
  progress : Option Nat := none
deriving DecidableEq

/-- The `update` callback from `createJob`: a no-op once the state is
`cancelled`; otherwise it sets the message, takes a defined `partialResult`
from the payload, overwrites `progress` (clearing it when the payload has no
`progress` entry), refreshes `updatedAt`, and promotes `queued` to
`running`. -/
def updateJob (now : Nat) (message : String) (payload : Option JobUpdatePayload)
    (j : Job) : Job :=
  if j.state = .cancelled then j
  else
    let j1 := { j with message := message }
    let j2 :=
      match payload with
      | some p => if p.partialResult.isSome then { j1 with partialResult := p.partialResult } else j1
      | none => j1
    let j3 :=
      match payload with
      | some p => if p.progressGiven then { j2 with progress := p.progress } else { j2 with progress := none }
      | none => { j2 with progress := none }
    let j4 := { j3 with updatedAt := now }
    if j4.state = .queued then { j4 with state := .running } else j4

/-- `cancelJob` on an existing job: a no-op on terminal states, otherwise it
marks the request and moves the job to `cancelled`. -/
def cancelJob (now : Nat) (j : Job) : Job :=
  if isTerminalState j.state then j
  else
    { j with
        cancelRequested := true
        state := .cancelled
        message := "Cancelled by user."
        progress := none
        updatedAt := now }

/-- The runner-completion write for a runner that returned `result`. -/
def finishSuccess (now : Nat) (result : String) (j : Job) : Job :=
  if j.cancelRequested || j.state = .cancelled then
    { j with state := .cancelled, message := "Cancelled by user.", progress := none,
             updatedAt := now }
  else
    { j with state := .success, result := some result, partialResult := some result,
             message := "Completed.", progress := none, updatedAt := now }

/-- The runner-completion write for a runner that threw `errMsg`;
`isCancelledError` marks a `JobCancelledError`. -/
def finishError (now : Nat) (errMsg : String) (isCancelledError : Bool) (j : Job) : Job :=
  if j.cancelRequested || j.state = .cancelled || isCancelledError then
    { j with state := .cancelled, message := "Cancelled by user.", progress := none,
             updatedAt := now }
  else
    { j with state := .error, error := some errMsg, message := errMsg, progress := none,
             updatedAt := now }

/-- A job that has completed successfully, used to exhibit late-update
mutation. -/
def successJobExample : Job :=
  { id := "job-1", state := .success, message := "Completed.",
    result := some "rows", partialResult := some "rows", updatedAt := 10 }

/-- C2 counterexample: `update` only short-circuits on `cancelled`, so a late
update against a job already in the terminal `success` state still overwrites
`message` (and `updatedAt`), against the claim that no field except identity
changes after any terminal state. -/
theorem update_after_success_mutates_counterexample :
    isTerminalState successJobExample.state = true ∧
    (updateJob 11 "late update" none successJobExample).message = "late update" ∧
    updateJob 11 "late update" none successJobExample ≠ successJobExample :=
  ⟨by decide, by decide, by decide⟩

/-- C2 (amended): every job-manager write moves the state only forward along
`queued → running → {success, error, cancelled}` (no backward transition);
`cancelJob` is a no-op on any terminal state and `update` is a no-op on
`cancelled`; a completion write on a cancelled job leaves it cancelled. After
`success` or `error`, however, a late `update` — while never changing `state`,
`result`, `error`, `cancelRequested`, `id` or `createdAt` — may still change
`message`, `partialResult`, `progress` and `updatedAt`. -/
theorem job_lifecycle_forward_only :
    ∀ (now : Nat) (msg res emsg : String) (payload : Option JobUpdatePayload)
      (b : Bool) (j : Job),
      stateRank j.state ≤ stateRank (updateJob now msg payload j).state ∧
      stateRank j.state ≤ stateRank (cancelJob now j).state ∧
      stateRank j.state ≤ stateRank (finishSuccess now res j).state ∧
      stateRank j.state ≤ stateRank (finishError now emsg b j).state ∧
      (isTerminalState j.state = true →
        (updateJob now msg payload j).state = j.state ∧ cancelJob now j = j) ∧
      (j.state = .cancelled →
        updateJob now msg payload j = j ∧
        (finishSuccess now res j).state = .cancelled ∧
        (finishError now emsg b j).state = .cancelled) ∧
      (j.state = .success ∨ j.state = .error →
        (updateJob now msg payload j).state = j.state ∧
        (updateJob now msg payload j).result = j.result ∧
        (updateJob now msg payload j).error = j.error ∧
        (updateJob now msg payload j).cancelRequested = j.cancelRequested ∧
        (updateJob now msg payload j).id = j.id ∧
        (updateJob now msg payload j).createdAt = j.createdAt) := by
  intro now msg res emsg payload b j
  have hupd_state : ∀ h : ¬ j.state = .cancelled,
      (updateJob now msg payload j).state =
        (if j.state = .queued then .running else j.state) := by
    intro h
    unfold updateJob
    rw [if_neg h]
    cases payload with
    | none => by_cases hq : j.state = .queued <;> simp [hq]
    | some p =>
      by_cases hp : p.partialResult.isSome <;> by_cases hg : p.progressGiven <;>
        by_cases hq : j.state = .queued <;> simp [hp, hg, hq]
  refine ⟨?_, ?_, ?_, ?_, ?_, ?_, ?_⟩
  · by_cases hc : j.state = .cancelled
    · simp [updateJob, hc]
    · rw [hupd_state hc]
      cases hj : j.state <;> simp [stateRank]
  · unfold cancelJob
    split
    · exact Nat.le_refl _
    · cases hj : j.state <;> simp_all [isTerminalState, stateRank]
  · unfold finishSuccess
    split
    · cases hj : j.state <;> simp [stateRank]
    · cases hj : j.state <;> simp [stateRank]
  · unfold finishError
    split
    · cases hj : j.state <;> simp [stateRank]
    · cases hj : j.state <;> simp [stateRank]
  · intro hterm
    constructor
    · by_cases hc : j.state = .cancelled
      · simp [updateJob, hc]
      · rw [hupd_state hc]
        cases hj : j.state <;> simp_all [isTerminalState]
    · unfold cancelJob
      rw [if_pos hterm]
  · intro hc
    refine ⟨by simp [updateJob, hc], ?_, ?_⟩
    · unfold finishSuccess
      rw [if_pos (by simp [hc])]
    · unfold finishError
      rw [if_pos (by simp [hc])]
  · intro hse
    have hc : ¬ j.state = .cancelled := by
      rcases hse with h | h <;> simp [h]
    have hq : ¬ j.state = .queued := by
      rcases hse with h | h <;> simp [h]
    have hstate : (updateJob now msg payload j).state = j.state := by
      rw [hupd_state hc, if_neg hq]
    refine ⟨hstate, ?_, ?_, ?_, ?_, ?_⟩ <;>
      · unfold updateJob
        rw [if_neg hc]
        cases payload with
        | none => by_cases hq : j.state = .queued <;> simp [hq]
        | some p =>
          by_cases hp : p.partialResult.isSome <;> by_cases hg : p.progressGiven <;>
            by_cases hq : j.state = .queued <;> simp [hp, hg, hq]

/-- Witness for the amended C2 theorem at concrete jobs. -/
theorem job_lifecycle_forward_only_witness :
    ((updateJob 11 "late" none successJobExample).state = successJobExample.state ∧
      (updateJob 11 "late" none successJobExample).result = successJobExample.result ∧
      (updateJob 11 "late" none successJobExample).error = successJobExample.error ∧
      (updateJob 11 "late" none successJobExample).cancelRequested = successJobExample.cancelRequested ∧
      (updateJob 11 "late" none successJobExample).id = successJobExample.id ∧
      (updateJob 11 "late" none successJobExample).createdAt = successJobExample.createdAt) ∧
    ((updateJob 11 "late" none successJobExample).state = successJobExample.state ∧
      cancelJob 11 successJobExample = successJobExample) :=
  ⟨(job_lifecycle_forward_only 11 "late" "r" "e" none false successJobExample).2.2.2.2.2.2
      (Or.inl (by decide)),
    (job_lifecycle_forward_only 11 "late" "r" "e" none false successJobExample).2.2.2.2.1
      (by decide)⟩

/-- C9 (confirmed): once a job's state is `cancelled`, every later invocation
of the `update` callback leaves the job entirely unchanged — message,
partialResult, progress, state and updatedAt included. -/
theorem update_noop_after_cancelled :
    ∀ (now : Nat) (message : String) (payload : Option JobUpdatePayload) (j : Job),
      j.state = .cancelled → updateJob now message payload j = j := by
  intro now message payload j h
  simp [updateJob, h]

/-- A cancelled job used to witness the cancelled-update no-op. -/
def cancelledJobExample : Job :=
  { id := "job-2", state := .cancelled, message := "Cancelled by user.",
    cancelRequested := true, updatedAt := 7 }

/-- Witness for the C9 theorem at a concrete cancelled job. -/
theorem update_noop_after_cancelled_witness :
    updateJob 8 "late write"
        (some { partialResult := some "p", progressGiven := true, progress := some 50 })
        cancelledJobExample =
      cancelledJobExample :=
  update_noop_after_cancelled 8 "late write"
    (some { partialResult := some "p", progressGiven := true, progress := some 50 })
    cancelledJobExample (by decide)

/-! ## `mistral.ts`: retry/backoff -/

/-- One provider response: HTTP status, the numeric value of the `Retry-After`
header when one is present and numeric, and the chat content of the body. -/
structure ChatResp where
  status : Nat
  retryAfter : Option ℚ := none
  content : String := ""
deriving DecidableEq

/-- `response.ok`: status in the 2xx range. -/
def respOk (r : ChatResp) : Bool := 200 ≤ r.status && r.status < 300

/-- The status set of the explicit retry branch of `mistralChat`. -/
def retriedStatus (s : Nat) : Bool :=
  s = 429 || s = 500 || s = 502 || s = 503 || s = 504

/-- Default of `MISTRAL_CHAT_MAX_RETRIES_PER_KEY` from `config.ts`. -/
def MISTRAL_CHAT_MAX_RETRIES_PER_KEY : Nat := 4

/-- `computeRetryWaitSeconds`: `min(retry-after, 30)` for a positive numeric
`Retry-After` header, else `min(2 ^ attempt + jitter + 0.2, 30)`, where
`jitter` is the sampled `Math.random() * 0.7`. -/
def computeRetryWaitSeconds (attempt : Nat) (retryAfter : Option ℚ) (jitterv : ℚ) : ℚ :=
  match retryAfter with
  | some q =>
    if 0 < q then min q 30
    else min ((2 : ℚ) ^ attempt + jitterv + 1 / 5) 30
  | none => min ((2 : ℚ) ^ attempt + jitterv + 1 / 5) 30

/-- Outcome of exhausting or succeeding with one credential: the chat content
if a request succeeded, the next request index, the accumulated waits and the
last error text. -/
structure KeyLoopResult where
  content : Option String
  nextIdx : Nat
  waits : List ℚ
  lastErr : String
deriving DecidableEq

/-- The per-credential attempt loop of `mistralChat`. `responses i` is the
provider's answer to the `i`-th request of the call and `jitter i` the random
jitter sampled after request `i`; `rem` counts the attempts left for this key
(the source's `attempt < maxR`). A status in `retriedStatus` sleeps the
computed backoff (honoring `Retry-After`) and retries; a non-ok status outside
that set is thrown, caught by the surrounding `catch`, and also retried — with
the plain backoff — while `attempt < maxR - 1`. -/
def chatKeyLoop (responses : Nat → ChatResp) (jitter : Nat → ℚ) (maxR : Nat) :
    Nat → Nat → Nat → List ℚ → String → KeyLoopResult
  | 0, _, idx, waits, lastErr => ⟨none, idx, waits, lastErr⟩
  | rem + 1, attempt, idx, waits, lastErr =>
    let r := responses idx
    if retriedStatus r.status then
      chatKeyLoop responses jitter maxR rem (attempt + 1) (idx + 1)
        (waits ++ [computeRetryWaitSeconds attempt r.retryAfter (jitter idx)])
        (toString r.status)
    else if respOk r then ⟨some r.content, idx + 1, waits, lastErr⟩
    else
      if attempt < maxR - 1 then
        chatKeyLoop responses jitter maxR rem (attempt + 1) (idx + 1)
          (waits ++ [computeRetryWaitSeconds attempt none (jitter idx)])
          (toString r.status ++ ": " ++ r.content)
      else ⟨none, idx + 1, waits, toString r.status ++ ": " ++ r.content⟩

/-- Trace of a whole `mistralChat` call: its outcome, how many requests were
dispatched and which backoff waits were slept. -/
structure ChatTrace where
  outcome : Except String String
  requests : Nat
  waits : List ℚ

/-- The outer key loop of `mistralChat` over the remaining credentials. -/
def chatKeysLoop (responses : Nat → ChatResp) (jitter : Nat → ℚ) (maxR : Nat) :
    Nat → Nat → List ℚ → String → ChatTrace
  | 0, idx, waits, lastErr =>
    ⟨.error ("Mistral chat failed after retries: " ++ lastErr), idx, waits⟩
  | k + 1, idx, waits, lastErr =>
    match chatKeyLoop responses jitter maxR maxR 0 idx waits lastErr with
    | ⟨some content, idx1, waits1, _⟩ => ⟨.ok content, idx1, waits1⟩
    | ⟨none, idx1, waits1, e1⟩ => chatKeysLoop responses jitter maxR k idx1 waits1 e1

/-- `mistralChat` with `keys` credentials and `maxR` attempts per key. -/
def mistralChatRun (responses : Nat → ChatResp) (jitter : Nat → ℚ) (maxR keys : Nat) :
    ChatTrace :=
  if keys = 0 then ⟨.error "No Mistral API keys configured.", 0, []⟩
  else chatKeysLoop responses jitter maxR keys 0 [] "Unknown Mistral error"

/-- The provider of the claim's scenario: 429, 429, then 200 with body `c`. -/
def scenario429 (ra0 ra1 : Option ℚ) (c : String) : Nat → ChatResp :=
  fun i => if i = 0 then ⟨429, ra0, ""⟩ else if i = 1 then ⟨429, ra1, ""⟩ else ⟨200, none, c⟩

/-- A provider answering 400 first and 200 afterwards. -/
def respSeq400 : Nat → ChatResp :=
  fun i => if i = 0 then ⟨400, none, "bad"⟩ else ⟨200, none, "hello"⟩

/-- C4 counterexample: a 400 response — not in {429, 500, 502, 503, 504} — is
thrown, caught, and retried all the same: the call dispatches a second request
and succeeds, against the claim that the retried statuses are exactly that
set. -/
theorem non_retry_status_still_retried_counterexample :
    mistralChatRun respSeq400 (fun _ => 0) MISTRAL_CHAT_MAX_RETRIES_PER_KEY 1 =
      ⟨.ok "hello", 2, [computeRetryWaitSeconds 0 none 0]⟩ ∧
    retriedStatus 400 = false :=
  ⟨rfl, by decide⟩

lemma chatKeyLoop_retried (responses : Nat → ChatResp) (jitter : Nat → ℚ)
    (maxR rem attempt idx : Nat) (waits : List ℚ) (lastErr : String)
    (h : retriedStatus (responses idx).status = true) :
    chatKeyLoop responses jitter maxR (rem + 1) attempt idx waits lastErr =
      chatKeyLoop responses jitter maxR rem (attempt + 1) (idx + 1)
        (waits ++ [computeRetryWaitSeconds attempt (responses idx).retryAfter (jitter idx)])
        (toString (responses idx).status) := by
  simp [chatKeyLoop, h]

lemma chatKeyLoop_ok (responses : Nat → ChatResp) (jitter : Nat → ℚ)
    (maxR rem attempt idx : Nat) (waits : List ℚ) (lastErr : String)
    (h1 : retriedStatus (responses idx).status = false)
    (h2 : respOk (responses idx) = true) :
    chatKeyLoop responses jitter maxR (rem + 1) attempt idx waits lastErr =
      ⟨some (responses idx).content, idx + 1, waits, lastErr⟩ := by
  simp [chatKeyLoop, h1, h2]

/-- C4 (amended): on a provider answering 429, 429, 200 a single-credential
call succeeds with the 200 content after exactly 2 retries (3 requests),
sleeping exactly the two computed backoffs; `computeRetryWaitSeconds` is
`min(retry-after, 30)` for a positive header and `min(2^attempt + jitter +
0.2, 30)` otherwise; the explicit retry branch covers exactly
{429, 500, 502, 503, 504}, with up to 4 attempts per credential by default —
but any other failure, a non-ok status such as 400 included, is thrown,
caught, and retried as well with the plain backoff (see the
counterexample). -/
theorem mistral_chat_retry_behavior :
    (∀ (ra0 ra1 : Option ℚ) (jitter : Nat → ℚ) (c : String),
      mistralChatRun (scenario429 ra0 ra1 c) jitter MISTRAL_CHAT_MAX_RETRIES_PER_KEY 1 =
        ⟨.ok c, 3, [computeRetryWaitSeconds 0 ra0 (jitter 0),
          computeRetryWaitSeconds 1 ra1 (jitter 1)]⟩) ∧
    (∀ (attempt : Nat) (q r : ℚ), 0 < q →
      computeRetryWaitSeconds attempt (some q) r = min q 30) ∧
    (∀ (attempt : Nat) (r : ℚ),
      computeRetryWaitSeconds attempt none r = min ((2 : ℚ) ^ attempt + r + 1 / 5) 30) ∧
    (∀ s : Nat, retriedStatus s = true ↔ s ∈ ([429, 500, 502, 503, 504] : List Nat)) ∧
    (∀ (jitter : Nat → ℚ) (ra : Option ℚ),
      (mistralChatRun (fun _ => ⟨429, ra, ""⟩) jitter
        MISTRAL_CHAT_MAX_RETRIES_PER_KEY 1).requests = 4) := by
  refine ⟨?_, ?_, ?_, ?_, ?_⟩
  · intro ra0 ra1 jitter c
    rfl
  · intro attempt q r h
    simp [computeRetryWaitSeconds, h]
  · intro attempt r
    rfl
  · intro s
    simp only [retriedStatus, Bool.or_eq_true, decide_eq_true_eq, List.mem_cons,
      List.not_mem_nil, or_false]
    tauto
  · intro jitter ra
    rfl

/-- Witness for the amended C4 theorem at concrete headers and jitter. -/
theorem mistral_chat_retry_behavior_witness :
    mistralChatRun (scenario429 (some 5) none "hi") (fun _ => 0)
        MISTRAL_CHAT_MAX_RETRIES_PER_KEY 1 =
      ⟨.ok "hi", 3, [computeRetryWaitSeconds 0 (some 5) 0,
        computeRetryWaitSeconds 1 none 0]⟩ ∧
    computeRetryWaitSeconds 0 (some 5) 0 = min 5 30 ∧
    (mistralChatRun (fun _ => ⟨429, none, ""⟩) (fun _ => 0)
      MISTRAL_CHAT_MAX_RETRIES_PER_KEY 1).requests = 4 :=
  ⟨mistral_chat_retry_behavior.1 (some 5) none (fun _ => 0) "hi",
    mistral_chat_retry_behavior.2.1 0 5 0 (by norm_num),
    mistral_chat_retry_behavior.2.2.2.2 (fun _ => 0) none⟩

/-! ## `mistral.ts`: OCR, and the assessment file pipeline head -/

/-- One page of an OCR response; `images` holds the image ids. -/
structure OcrPage where
  markdown : String := ""
  images : List String := []
deriving DecidableEq

/-- What one credential's OCR request can come to: the `fetch`/`json()` throw
path (caught and skipped), a non-ok status (skipped by `continue`), or an ok
response with its pages. -/
inductive OcrKeyOutcome where
  | thrown
  | nonOk
  | okResp (pages : List OcrPage)
deriving DecidableEq

structure OcrResult where
  fullText : String
  imageIds : List String
deriving DecidableEq

/-- `mistralOcr` over the per-key outcomes (the empty list also covers "no API
keys configured"): every failure moves to the next key, the first ok response
is assembled, and exhaustion returns the empty result — no path throws. -/
def mistralOcr : List OcrKeyOutcome → OcrResult
  | [] => ⟨"", []⟩
  | .thrown :: rest => mistralOcr rest
  | .nonOk :: rest => mistralOcr rest
  | .okResp pages :: _ =>
    ⟨jsTrim (String.intercalate "\n\n" (pages.map (fun p => p.markdown))),
      (pages.map (fun p => p.images)).flatten⟩

/-- Head of `processAssessmentFile`: an empty OCR text short-circuits to zero
rows before the extraction/classification continuation (`pipeline`) runs. -/
def processAssessmentFileRows (ocr : OcrResult) (pipeline : String → List String) :
    List String :=
  if ocr.fullText = "" then [] else pipeline ocr.fullText

lemma mistralOcr_all_fail :
    ∀ outcomes : List OcrKeyOutcome,
      (∀ o ∈ outcomes, o = .thrown ∨ o = .nonOk) →
      mistralOcr outcomes = ⟨"", []⟩ := by
  intro outcomes
  induction outcomes with
  | nil => intro _; rfl
  | cons o rest ih =>
    intro h
    rcases h o (List.mem_cons_self o rest) with ho | ho <;>
      (subst ho; exact ih fun x hx => h x (List.mem_cons_of_mem _ hx))

/-- C10 (confirmed): `mistralOcr` is total — with no keys configured, or when
every key's request throws or returns a non-ok status, it returns the empty
result, and an assessment file with empty OCR text then contributes zero
output rows with no error and no recorded skip reason. -/
theorem mistral_ocr_never_raises :
    ∀ (outcomes : List OcrKeyOutcome) (pipeline : String → List String),
      (∀ o ∈ outcomes, o = .thrown ∨ o = .nonOk) →
      mistralOcr outcomes = ⟨"", []⟩ ∧
      processAssessmentFileRows (mistralOcr outcomes) pipeline = [] := by
  intro outcomes pipeline h
  have hres := mistralOcr_all_fail outcomes h
  exact ⟨hres, by rw [hres]; rfl⟩

/-- Witness for the C10 theorem: both failure kinds across two keys. -/
theorem mistral_ocr_never_raises_witness :
    mistralOcr [.thrown, .nonOk] = ⟨"", []⟩ ∧
    processAssessmentFileRows (mistralOcr [.thrown, .nonOk]) (fun t => [t]) = [] :=
  mistral_ocr_never_raises [.thrown, .nonOk] (fun t => [t]) (by decide)

/-! ## Executor row loops: `runInterviewAnalyzer` vs `analyzeDrilldownRows` -/

/-- The candidate loop of `runInterviewAnalyzer` over the per-row outcomes
(`.ok rows` when `processInterviewRow` returns, `.error e` when it throws):
there is no per-row `try`, so the first failure aborts the whole run. -/
def runInterviewAnalyzerRows : List (Except String (List String)) → Except String (List String)
  | [] => .ok []
  | .error e :: _ => .error e
  | .ok rows :: rest =>
    match runInterviewAnalyzerRows rest with
    | .ok tail => .ok (rows ++ tail)
    | .error e => .error e

/-- The worker loop of `analyzeDrilldownRows` over per-candidate outcomes:
`n` is the 1-based candidate number, `total` the row count; a failure is
recorded as a skip message and the loop continues. Returns the flattened rows
and the skip messages. -/
def drilldownGo (total : Nat) : Nat → List (Except String (List String)) → List String × List String
  | _, [] => ([], [])
  | n, .ok rows :: rest =>
    let acc := drilldownGo total (n + 1) rest
    (rows ++ acc.1, acc.2)
  | n, .error e :: rest =>
    let acc := drilldownGo total (n + 1) rest
    (acc.1, ("Candidate " ++ toString n ++ "/" ++ toString total ++ " skipped: " ++ e) :: acc.2)

/-- `analyzeDrilldownRows` after the per-candidate work: the job errors only
when a nonempty input produced no rows at all, surfacing the first skip
reason; otherwise it succeeds with the rows and the skip messages. -/
def analyzeDrilldownRowsRun (outcomes : List (Except String (List String))) :
    Except String (List String × List String) :=
  let acc := drilldownGo outcomes.length 1 outcomes
  if 0 < outcomes.length ∧ acc.1 = [] then
    .error ("No questions were extracted from drilldown input. Check round note quality and model JSON output." ++
      (match acc.2.head? with
       | some m => " First issue: " ++ m
       | none => ""))
  else .ok acc

/-- C3 counterexample: in the interview analyzer a 2-row run where row 1
succeeds and row 2's fetch fails ends as a job `error` — row 1's rows are
lost — although one item produced output rows, against the claim that every
pipeline executor skips failed items and errors only when zero items
succeed. -/
theorem interview_row_failure_aborts_counterexample :
    runInterviewAnalyzerRows [.ok ["row1"], .error "Error: fetch failed"] =
      .error "Error: fetch failed" ∧
    (finishError 5 "Error: fetch failed" false
      { id := "job-3", state := .running, message := "working" }).state = .error ∧
    (["row1"] : List String) ≠ [] :=
  ⟨rfl, by decide, by decide⟩

/-- C3 (amended): the drilldown executor is batch-tolerant — a 2-candidate run
whose first candidate yields rows and whose second fails ends `ok` with the
first candidate's rows plus one recorded skip reason, and it errors only when
a nonempty run yields zero rows, surfacing the first skip reason. The
interview analyzer, by contrast, has no per-row catch: the same scenario
propagates the failure and the job ends in `error`. -/
theorem drilldown_tolerant_interview_aborts :
    (∀ (pre : List String) (e : String), pre ≠ [] →
      analyzeDrilldownRowsRun [.ok pre, .error e] =
        .ok (pre, ["Candidate 2/2 skipped: " ++ e])) ∧
    (∀ e1 e2 : String,
      analyzeDrilldownRowsRun [.error e1, .error e2] =
        .error ("No questions were extracted from drilldown input. Check round note quality and model JSON output." ++
          (" First issue: " ++ ("Candidate 1/2 skipped: " ++ e1)))) ∧
    (∀ (pre : List String) (e : String),
      runInterviewAnalyzerRows [.ok pre, .error e] = .error e) := by
  refine ⟨?_, ?_, ?_⟩
  · intro pre e hpre
    simp [analyzeDrilldownRowsRun, drilldownGo, hpre]
    rfl
  · intro e1 e2
    simp [analyzeDrilldownRowsRun, drilldownGo]
    rfl
  · intro pre e
    rfl

/-- Witness for the amended C3 theorem at a concrete 2-row batch. -/
theorem drilldown_tolerant_interview_aborts_witness :
    analyzeDrilldownRowsRun [.ok ["r1"], .error "boom"] =
      .ok (["r1"], ["Candidate 2/2 skipped: " ++ "boom"]) ∧
    runInterviewAnalyzerRows [.ok ["r1"], .error "boom"] = .error "boom" :=
  ⟨drilldown_tolerant_interview_aborts.1 ["r1"] "boom" (by decide),
    drilldown_tolerant_interview_aborts.2.2 ["r1"] "boom"⟩

end PsmTool
